import Mathlib

/-!
Shallow embedding of the concurrency-safety and resource-lifecycle core of
`src/lib.rs` (backtrace-rs): the `Bomb` panic guard, the `lock` module
(thread-local `LOCK_HELD` flag plus a process-wide mutex), and the
`dbghelp_init` / `Cleanup` reference-counted lifecycle of the Windows
symbol handler.

Modelling conventions:
- Thread identifiers are `Nat`; thread-local cells become functions
  `Nat → Bool` in an explicit state record.
- The process-wide `Mutex<()>` is modelled by its owner, `Option Nat`
  (`none` means free); a thread parked inside `(*LOCK).lock()` is recorded
  in a `waiting` set.
- A `panic!` is modelled as a terminal outcome of the translated operation;
  a failed `assert!` is recorded as a `false` success flag.
- `DWORD` configuration values are `Nat` (bitwise or of two values below
  `2 ^ 32` stays below `2 ^ 32`, so no overflow arises).
- Calls into the external dbghelp API that mutate process-global state
  (`SymSetOptions`, `SymInitializeW`, `SymCleanup`) are recorded in an
  emitted effect list; `SymGetOptions`, a pure read, is modelled by reading
  the `symOptions` field of the state.
-/

/-- The `Bomb` guard of `src/lib.rs` lines 132-135: a scope guard whose
`Drop` impl panics when `enabled` is still `true`. -/
structure Bomb where
  enabled : Bool
deriving DecidableEq

/-- Outcome of running a destructor: either the scope exits normally, or the
destructor fires `panic!`. The `Bomb` panics only while the library is
mid-backtrace (its message is "cannot panic during the backtrace function");
there the panic terminates the program, as the claim set describes. -/
inductive DropOutcome
  | normalExit
  | panicked
deriving DecidableEq

/-- `impl Drop for Bomb` (lines 137-144): `if self.enabled { panic!(..) }`. -/
def Bomb.dropRun (b : Bomb) : DropOutcome :=
  if b.enabled then DropOutcome.panicked else DropOutcome.normalExit

/-- Disarming a bomb: the use sites assign `bomb.enabled = false` before the
guard leaves scope. -/
def Bomb.disarm (b : Bomb) : Bomb :=
  { b with enabled := false }

/-!
The `lock` module (lines 146-180).

State of one process: the thread-local `LOCK_HELD` cells (`flag`), the global
`Mutex<()>` (`owner`), which threads currently own a live `LockGuard` value
(`holdsGuard`), and which threads are parked inside `(*LOCK).lock()`
(`waiting`).
-/

structure LockSys where
  flag : Nat → Bool
  owner : Option Nat
  holdsGuard : Nat → Bool
  waiting : Nat → Bool

/-- Pointwise update of a thread-indexed cell. -/
def setAt (f : Nat → Bool) (t : Nat) (v : Bool) : Nat → Bool :=
  fun u => if u = t then v else f u

/-- Process start: all `LOCK_HELD` cells are `Cell::new(false)`, the mutex is
free, no guard exists, nobody is parked. -/
def lockInit : LockSys :=
  { flag := fun _ => false
    owner := none
    holdsGuard := fun _ => false
    waiting := fun _ => false }

/-- Result of one call to `lock()` by a given thread. -/
inductive LockResult
  | noneReentrant
  | acquired
  | blocked
deriving DecidableEq

/-- `pub fn lock() -> Option<LockGuard>` (lines 168-179), called by thread
`t`: if `LOCK_HELD` is set, return `None` at once; otherwise set `LOCK_HELD`,
then call `(*LOCK).lock()` — which returns a guard immediately when the mutex
is free and parks the thread otherwise. -/
def lock (t : Nat) (s : LockSys) : LockResult × LockSys :=
  if s.flag t = true then
    (LockResult.noneReentrant, s)
  else
    let s1 : LockSys := { s with flag := setAt s.flag t true }
    match s1.owner with
    | none =>
        (LockResult.acquired,
          { s1 with owner := some t, holdsGuard := setAt s1.holdsGuard t true })
    | some _ =>
        (LockResult.blocked, { s1 with waiting := setAt s1.waiting t true })

/-- `impl Drop for LockGuard` (lines 159-166), run by thread `t`: assert that
`LOCK_HELD` is set (the `Bool` component records whether the assert passed),
clear it, and release the inner `MutexGuard`. -/
def dropLockGuard (t : Nat) (s : LockSys) : Bool × LockSys :=
  if s.flag t = true then
    (true,
      { s with flag := setAt s.flag t false
               owner := none
               holdsGuard := setAt s.holdsGuard t false })
  else
    (false, s)

/-- Interleaving semantics of the `lock` module: one step is one observable
transition of some thread.
- `enter`: a thread with `LOCK_HELD` clear runs lines 172-177, setting its
  flag and parking on the mutex;
- `grant`: the mutex, when free, hands itself to one parked thread, which
  leaves `lock()` holding a fresh `LockGuard`;
- `release`: a thread holding a guard drops it, clearing its flag and
  freeing the mutex.
A reentrant call (flag already set) returns `None` without changing any
state, so it needs no transition. -/
inductive LockStep : LockSys → LockSys → Prop
  | enter (t : Nat) (s : LockSys)
      (hf : s.flag t = false) (hw : s.waiting t = false)
      (hg : s.holdsGuard t = false) :
      LockStep s
        { s with flag := setAt s.flag t true, waiting := setAt s.waiting t true }
  | grant (t : Nat) (s : LockSys)
      (hw : s.waiting t = true) (ho : s.owner = none) :
      LockStep s
        { s with waiting := setAt s.waiting t false
                 owner := some t
                 holdsGuard := setAt s.holdsGuard t true }
  | release (t : Nat) (s : LockSys)
      (hg : s.holdsGuard t = true) :
      LockStep s
        { s with flag := setAt s.flag t false
                 owner := none
                 holdsGuard := setAt s.holdsGuard t false }

/-- States reachable from process start by interleaved `lock` traffic. -/
inductive LockReachable : LockSys → Prop
  | start : LockReachable lockInit
  | step {s s' : LockSys} :
      LockReachable s → LockStep s s' → LockReachable s'

/-- The inductive invariant of the `lock` module: a live guard pins the mutex
to its thread and keeps that thread's `LOCK_HELD` flag set; the mutex owner
does hold a guard; a parked thread has its flag set and no guard yet. -/
def LockInv (s : LockSys) : Prop :=
  (∀ t, s.holdsGuard t = true → s.owner = some t ∧ s.flag t = true) ∧
  (∀ t, s.owner = some t → s.holdsGuard t = true) ∧
  (∀ t, s.waiting t = true → s.flag t = true ∧ s.holdsGuard t = false)

theorem lockInv_init : LockInv lockInit := by
  refine ⟨?_, ?_, ?_⟩ <;> intro t h <;> simp [lockInit] at h

theorem lockInv_step {s s' : LockSys} (hinv : LockInv s) (hstep : LockStep s s') :
    LockInv s' := by
  obtain ⟨h1, h2, h3⟩ := hinv
  cases hstep with
  | enter t s hf hw hg =>
      refine ⟨?_, ?_, ?_⟩ <;> intro u hu
      · rcases h1 u hu with ⟨ho, hfl⟩
        refine ⟨ho, ?_⟩
        simp only [setAt]
        by_cases hut : u = t
        · simp [hut]
        · simpa [hut] using hfl
      · exact h2 u hu
      · simp only [setAt] at hu ⊢
        by_cases hut : u = t
        · subst hut; simpa using hg
        · simp only [hut, if_false] at hu ⊢
          rcases h3 u hu with ⟨hfl, hgu⟩
          exact ⟨hfl, hgu⟩
  | grant t s hw ho =>
      have hft : s.flag t = true := (h3 t hw).1
      refine ⟨?_, ?_, ?_⟩ <;> intro u hu
      · simp only [setAt] at hu
        by_cases hut : u = t
        · subst hut; exact ⟨rfl, hft⟩
        · simp only [hut, if_false] at hu
          rcases h1 u hu with ⟨hou, _⟩
          rw [ho] at hou; cases hou
      · simp only [Option.some.injEq] at hu
        subst hu
        simp [setAt]
      · simp only [setAt] at hu ⊢
        by_cases hut : u = t
        · simp [hut] at hu
        · simp only [hut, if_false] at hu ⊢
          exact h3 u hu
  | release t s hg =>
      have hot : s.owner = some t := (h1 t hg).1
      refine ⟨?_, ?_, ?_⟩ <;> intro u hu
      · simp only [setAt] at hu
        by_cases hut : u = t
        · simp [hut] at hu
        · simp only [hut, if_false] at hu
          rcases h1 u hu with ⟨hou, _⟩
          rw [hot] at hou
          simp only [Option.some.injEq] at hou
          exact absurd hou.symm hut
      · simp at hu
      · simp only [setAt] at hu ⊢
        by_cases hut : u = t
        · subst hut
          rcases h3 u hu with ⟨_, hgu⟩
          rw [hg] at hgu; cases hgu
        · simp only [hut, if_false]
          exact h3 u hu

theorem lockInv_reachable {s : LockSys} (h : LockReachable s) : LockInv s := by
  induction h with
  | start => exact lockInv_init
  | step _ hstep ih => exact lockInv_step ih hstep

/-!
The dbghelp lifecycle (lines 182-257): `Cleanup`, `dbghelp_init`, and
`impl Drop for Cleanup`.
-/

/-- The symbol options flag missing from winapi (line 214). -/
def SYMOPT_DEFERRED_LOADS : Nat := 0x00000004

/-- `struct Cleanup` (lines 182-186). The `handle` field is omitted: it is
always the constant pseudo-handle returned by `GetCurrentProcess()` and no
claim depends on it. `opts` is the `SymGetOptions()` value captured when this
particular lease was created. -/
structure Cleanup where
  opts : Nat
deriving DecidableEq

/-- The state-mutating dbghelp API calls, recorded as emitted effects. -/
inductive SymCall
  | setOptions (v : Nat)
  | symInitializeW
  | symCleanup
deriving DecidableEq

/-- Shared dbghelp state: the `REF_COUNT` cell behind its mutex, and the
process-wide symbol options read by `SymGetOptions` / written by
`SymSetOptions`. -/
structure DbgState where
  refCount : Nat
  symOptions : Nat
deriving DecidableEq

/-- `unsafe fn dbghelp_init() -> Option<Cleanup>` (lines 188-257).
`initOk` stands for whether the external `SymInitializeW` call returns
`TRUE` (it fails when another component already initialized symbols).
Returns the optional lease, the new state, and the emitted mutating calls.
- `let opts = SymGetOptions()` (line 234) reads `s.symOptions`;
- if the count is positive (lines 239-242): increment and return a lease,
  emitting nothing;
- otherwise (lines 244-256): `SymSetOptions(opts | SYMOPT_DEFERRED_LOADS)`,
  then `SymInitializeW`; on failure return `None`, on success increment the
  count and return a lease. -/
def dbghelp_init (initOk : Bool) (s : DbgState) :
    Option Cleanup × DbgState × List SymCall :=
  let opts := s.symOptions
  if s.refCount > 0 then
    (some { opts := opts }, { s with refCount := s.refCount + 1 }, [])
  else
    let newOpts := opts ||| SYMOPT_DEFERRED_LOADS
    let s1 : DbgState := { s with symOptions := newOpts }
    let calls := [SymCall.setOptions newOpts, SymCall.symInitializeW]
    if initOk then
      (some { opts := opts }, { s1 with refCount := s1.refCount + 1 }, calls)
    else
      (none, s1, calls)

/-- `impl Drop for Cleanup` (lines 220-232): decrement `REF_COUNT`; when it
reaches zero, call `SymCleanup(self.handle)` and `SymSetOptions(self.opts)`.
(The claims only exercise states with `refCount` equal to the number of live
leases, so the `usize` decrement never underflows here.) -/
def Cleanup.dropRun (c : Cleanup) (s : DbgState) : DbgState × List SymCall :=
  let rc := s.refCount - 1
  if rc = 0 then
    ({ refCount := rc, symOptions := c.opts },
      [SymCall.symCleanup, SymCall.setOptions c.opts])
  else
    ({ s with refCount := rc }, [])

/-- Drop a list of leases left to right, concatenating the emitted calls. -/
def dropMany : List Cleanup → DbgState → DbgState × List SymCall
  | [], s => (s, [])
  | c :: cs, s =>
      let r := Cleanup.dropRun c s
      let r2 := dropMany cs r.1
      (r2.1, r.2 ++ r2.2)

/-- Perform `n` successive `dbghelp_init` calls (all with the same external
`SymInitializeW` outcome), collecting the leases in acquisition order. When a
call yields no lease the remaining calls are not modelled (unreachable when
`initOk` is `true`). -/
def acquireMany : Nat → Bool → DbgState → List Cleanup × DbgState × List SymCall
  | 0, _, s => ([], s, [])
  | n + 1, ok, s =>
      match dbghelp_init ok s with
      | (some c, s1, calls) =>
          let r := acquireMany n ok s1
          (c :: r.1, r.2.1, calls ++ r.2.2)
      | (none, s1, calls) => ([], s1, calls)

/-- The `SymCleanup` teardown calls among an effect list. -/
def SymCall.isCleanup : SymCall → Bool
  | SymCall.symCleanup => true
  | _ => false

def cleanupCount (l : List SymCall) : Nat :=
  (l.filter SymCall.isCleanup).length

theorem cleanupCount_append (l1 l2 : List SymCall) :
    cleanupCount (l1 ++ l2) = cleanupCount l1 + cleanupCount l2 := by
  simp [cleanupCount, List.filter_append]

/-- Dropping one lease while at least one other lease stays alive: the count
just decrements and nothing is emitted. -/
theorem dropRun_of_two_le (c : Cleanup) (s : DbgState) (h : 2 ≤ s.refCount) :
    Cleanup.dropRun c s = ({ s with refCount := s.refCount - 1 }, []) := by
  have hne : s.refCount - 1 ≠ 0 := by omega
  simp [Cleanup.dropRun, hne]

/-- Dropping the last lease: the count reaches zero, `SymCleanup` runs and the
saved options of this lease are restored. -/
theorem dropRun_of_last (c : Cleanup) (s : DbgState) (h : s.refCount = 1) :
    Cleanup.dropRun c s =
      ({ refCount := 0, symOptions := c.opts },
        [SymCall.symCleanup, SymCall.setOptions c.opts]) := by
  simp [Cleanup.dropRun, h]

/-- Dropping fewer leases than the current count: the count just goes down by
the number dropped and no teardown is emitted. -/
theorem dropMany_lt (cs : List Cleanup) (s : DbgState)
    (h : cs.length < s.refCount) :
    dropMany cs s = ({ s with refCount := s.refCount - cs.length }, []) := by
  induction cs generalizing s with
  | nil => simp [dropMany]
  | cons c cs ih =>
      have h2 : 2 ≤ s.refCount := by
        have := h; simp [List.length_cons] at this; omega
      have hs1 := dropRun_of_two_le c s h2
      have hlt : cs.length < s.refCount - 1 := by
        simp [List.length_cons] at h; omega
      simp only [dropMany, hs1]
      rw [ih _ hlt]
      have : s.refCount - 1 - cs.length = s.refCount - (cs.length + 1) := by omega
      simp [this, List.length_cons]

theorem dropMany_append (cs1 cs2 : List Cleanup) (s : DbgState) :
    dropMany (cs1 ++ cs2) s =
      ((dropMany cs2 (dropMany cs1 s).1).1,
        (dropMany cs1 s).2 ++ (dropMany cs2 (dropMany cs1 s).1).2) := by
  induction cs1 generalizing s with
  | nil => simp [dropMany]
  | cons c cs ih =>
      show dropMany (c :: (cs ++ cs2)) s = _
      simp only [dropMany]
      rw [ih]
      simp [List.append_assoc]

/-- Acquiring while the count is already positive: every additional call
takes the fast path, returning a lease that saved the current (already ORed)
options, incrementing the count, emitting nothing. -/
theorem acquireMany_pos (k : Nat) (ok : Bool) (s : DbgState)
    (h : 1 ≤ s.refCount) :
    acquireMany k ok s =
      (List.replicate k { opts := s.symOptions },
        { s with refCount := s.refCount + k }, []) := by
  induction k generalizing s with
  | zero => simp [acquireMany]
  | succ n ih =>
      have hpos : s.refCount > 0 := h
      have hinit : dbghelp_init ok s =
          (some { opts := s.symOptions },
            { s with refCount := s.refCount + 1 }, []) := by
        simp [dbghelp_init, hpos]
      simp only [acquireMany]
      rw [hinit]
      simp only
      rw [ih { s with refCount := s.refCount + 1 } (by simp)]
      simp [List.replicate_succ]
      omega

/-!
A concrete two-thread scenario used to instantiate the lock theorems:
thread 0 acquires the guard, thread 1 calls `lock()` and parks on the mutex,
thread 0 releases, the mutex is granted to thread 1.
-/

def lockS1 : LockSys :=
  { lockInit with
      flag := setAt lockInit.flag 0 true
      waiting := setAt lockInit.waiting 0 true }

def lockS2 : LockSys :=
  { lockS1 with
      waiting := setAt lockS1.waiting 0 false
      owner := some 0
      holdsGuard := setAt lockS1.holdsGuard 0 true }

def lockS3 : LockSys :=
  { lockS2 with
      flag := setAt lockS2.flag 1 true
      waiting := setAt lockS2.waiting 1 true }

def lockS4 : LockSys :=
  { lockS3 with
      flag := setAt lockS3.flag 0 false
      owner := none
      holdsGuard := setAt lockS3.holdsGuard 0 false }

def lockS5 : LockSys :=
  { lockS4 with
      waiting := setAt lockS4.waiting 1 false
      owner := some 1
      holdsGuard := setAt lockS4.holdsGuard 1 true }

theorem lockS1_reachable : LockReachable lockS1 :=
  LockReachable.step LockReachable.start
    (LockStep.enter 0 lockInit (by decide) (by decide) (by decide))

theorem lockS2_reachable : LockReachable lockS2 :=
  LockReachable.step lockS1_reachable
    (LockStep.grant 0 lockS1 (by decide) rfl)

theorem lockS3_reachable : LockReachable lockS3 :=
  LockReachable.step lockS2_reachable
    (LockStep.enter 1 lockS2 (by decide) (by decide) (by decide))

theorem lockS4_reachable : LockReachable lockS4 :=
  LockReachable.step lockS3_reachable
    (LockStep.release 0 lockS3 (by decide))

/-- Claim C1: dropping a `Bomb` fires the `panic!` (terminating the program,
since the bomb only drops armed while the library is mid-backtrace) exactly
when `enabled` is still `true`; a disarmed bomb drops normally with no
effect. -/
theorem c1_bomb_drop_iff_armed (b : Bomb) :
    (Bomb.dropRun b = DropOutcome.panicked ↔ b.enabled = true) ∧
    Bomb.dropRun (Bomb.disarm b) = DropOutcome.normalExit := by
  cases b with
  | mk e => cases e <;> simp [Bomb.dropRun, Bomb.disarm]

/-- Claim C2: a thread whose `LOCK_HELD` flag is already set gets `None`
from `lock()` with the state unchanged — the mutex is never touched and the
call neither blocks nor deadlocks. -/
theorem c2_reentrant_lock_returns_none (t : Nat) (s : LockSys)
    (h : s.flag t = true) :
    lock t s = (LockResult.noneReentrant, s) := by
  simp [lock, h]

theorem c2_reentrant_lock_returns_none_witness :
    lockS2.flag 0 = true ∧
    lock 0 lockS2 = (LockResult.noneReentrant, lockS2) :=
  ⟨by decide, c2_reentrant_lock_returns_none 0 lockS2 (by decide)⟩

/-- Claim C4: from a state where the calling thread's flag is clear and the
mutex is free, `lock()` returns a guard; dropping that guard passes its
assert, clears the flag and frees the mutex; and a second `lock()` on the
same thread again returns a guard. -/
theorem c4_lock_drop_lock_roundtrip (t : Nat) (s : LockSys)
    (hf : s.flag t = false) (ho : s.owner = none) :
    (lock t s).1 = LockResult.acquired ∧
    (dropLockGuard t (lock t s).2).1 = true ∧
    (dropLockGuard t (lock t s).2).2.flag t = false ∧
    (dropLockGuard t (lock t s).2).2.owner = none ∧
    (lock t (dropLockGuard t (lock t s).2).2).1 = LockResult.acquired := by
  simp [lock, dropLockGuard, setAt, hf, ho]

theorem c4_lock_drop_lock_roundtrip_witness :
    lockInit.flag 0 = false ∧ lockInit.owner = none ∧
    ((lock 0 lockInit).1 = LockResult.acquired ∧
      (dropLockGuard 0 (lock 0 lockInit).2).1 = true ∧
      (dropLockGuard 0 (lock 0 lockInit).2).2.flag 0 = false ∧
      (dropLockGuard 0 (lock 0 lockInit).2).2.owner = none ∧
      (lock 0 (dropLockGuard 0 (lock 0 lockInit).2).2).1 =
        LockResult.acquired) :=
  ⟨rfl, rfl, c4_lock_drop_lock_roundtrip 0 lockInit rfl rfl⟩

/-- Claim C10: in every reachable state, a thread holding a live `LockGuard`
has its `LOCK_HELD` flag set, so the `assert!` in the guard's `Drop` impl
passes when the guard is dropped on the acquiring thread. -/
theorem c10_drop_assert_never_fails (s : LockSys) (t : Nat)
    (h : LockReachable s) (hg : s.holdsGuard t = true) :
    s.flag t = true ∧ (dropLockGuard t s).1 = true := by
  have hinv := lockInv_reachable h
  have hft := (hinv.1 t hg).2
  exact ⟨hft, by simp [dropLockGuard, hft]⟩

theorem c10_drop_assert_never_fails_witness :
    lockS2.holdsGuard 0 = true ∧
    (lockS2.flag 0 = true ∧ (dropLockGuard 0 lockS2).1 = true) :=
  ⟨by decide, c10_drop_assert_never_fails lockS2 0 lockS2_reachable (by decide)⟩

/-- Claim C3: in every reachable state at most one thread holds a live
`LockGuard`; and any step in which some thread completes its acquisition
happens only from a state where the mutex is free and no guard is
outstanding — a second caller stays parked until the first releases. -/
theorem c3_at_most_one_guard (s : LockSys) (h : LockReachable s) :
    (∀ t u, s.holdsGuard t = true → s.holdsGuard u = true → t = u) ∧
    (∀ s' t, LockStep s s' → s.holdsGuard t = false → s'.holdsGuard t = true →
      s.owner = none ∧ ∀ u, s.holdsGuard u = false) := by
  obtain ⟨h1, h2, h3⟩ := lockInv_reachable h
  constructor
  · intro t u ht hu
    have hot := (h1 t ht).1
    have hou := (h1 u hu).1
    rw [hot] at hou
    exact (Option.some.injEq _ _).mp hou
  · intro s' t hstep h0 hg
    cases hstep with
    | enter t2 _ hf hw hgu =>
        simp only at hg
        rw [h0] at hg
        cases hg
    | grant t2 _ hw ho =>
        refine ⟨ho, ?_⟩
        intro u
        cases hu : s.holdsGuard u with
        | false => rfl
        | true =>
            have hou := (h1 u hu).1
            rw [ho] at hou
            cases hou
    | release t2 _ hgu =>
        simp only [setAt] at hg
        by_cases hct : t = t2
        · simp [hct] at hg
        · simp only [hct, if_false] at hg
          rw [h0] at hg
          cases hg

theorem c3_at_most_one_guard_witness :
    lockS4.owner = none ∧ lockS4.holdsGuard 0 = false :=
  let h := (c3_at_most_one_guard lockS4 lockS4_reachable).2 lockS5 1
    (LockStep.grant 1 lockS4 (by decide) (by decide)) (by decide) (by decide)
  ⟨h.1, h.2 0⟩

/-- Claim C5: with the reference count equal to the number of live leases,
dropping all of them, in any order, emits `SymCleanup` exactly once; every
strict prefix of the drops emits no teardown, and just before the final drop
the count is exactly 1, so the one teardown happens on the 1-to-0 drop. -/
theorem c5_teardown_exactly_once (cs : List Cleanup) (s : DbgState)
    (hlen : s.refCount = cs.length) (hpos : 1 ≤ cs.length) :
    cleanupCount (dropMany cs s).2 = 1 ∧
    (∀ pre suf, cs = pre ++ suf → suf ≠ [] →
      cleanupCount (dropMany pre s).2 = 0) ∧
    (∀ pre c, cs = pre ++ [c] → (dropMany pre s).1.refCount = 1) := by
  have hne : cs ≠ [] := by
    intro hnil
    rw [hnil] at hpos
    simp at hpos
  have hlt : ∀ pre : List Cleanup, pre.length < cs.length →
      dropMany pre s = ({ s with refCount := s.refCount - pre.length }, []) := by
    intro pre hp
    exact dropMany_lt pre s (by omega)
  refine ⟨?_, ?_, ?_⟩
  · have hsplit : cs.dropLast ++ [cs.getLast hne] = cs :=
      List.dropLast_append_getLast hne
    have hdll : cs.dropLast.length = cs.length - 1 := List.length_dropLast cs
    have hplen : cs.dropLast.length < cs.length := by omega
    conv_lhs => rw [← hsplit]
    rw [dropMany_append, hlt cs.dropLast hplen]
    have hone : s.refCount - (cs.length - 1) = 1 := by omega
    have hdrop := dropRun_of_last (cs.getLast hne)
      { s with refCount := s.refCount - (cs.length - 1) } (by simpa using hone)
    simp [dropMany, hdll, hdrop, cleanupCount, SymCall.isCleanup]
  · intro pre suf heq hsuf
    have hsl : 1 ≤ suf.length := by
      cases suf with
      | nil => exact absurd rfl hsuf
      | cons a l => simp
    have hcl : cs.length = pre.length + suf.length := by
      rw [heq, List.length_append]
    have hp : pre.length < cs.length := by omega
    rw [hlt pre hp]
    simp [cleanupCount]
  · intro pre c heq
    have hcl : cs.length = pre.length + 1 := by
      rw [heq, List.length_append]
      simp
    have hp : pre.length < cs.length := by omega
    rw [hlt pre hp]
    simp
    omega

theorem c5_teardown_exactly_once_witness :
    ({ refCount := 2, symOptions := 4 } : DbgState).refCount =
      ([{ opts := 0 }, { opts := 4 }] : List Cleanup).length ∧
    cleanupCount
      (dropMany [{ opts := 0 }, { opts := 4 }]
        { refCount := 2, symOptions := 4 }).2 = 1 :=
  ⟨by decide,
    (c5_teardown_exactly_once [{ opts := 0 }, { opts := 4 }]
      { refCount := 2, symOptions := 4 } (by decide) (by decide)).1⟩

/-- Claim C6: a `dbghelp_init` call that finds the count positive increments
it and returns a lease at once, emitting no mutating dbghelp call — in
particular neither `SymSetOptions` nor `SymInitializeW`. -/
theorem c6_shared_path_no_reinit (initOk : Bool) (s : DbgState)
    (h : s.refCount > 0) :
    dbghelp_init initOk s =
      (some { opts := s.symOptions },
        { s with refCount := s.refCount + 1 }, []) := by
  simp [dbghelp_init, h]

theorem c6_shared_path_no_reinit_witness :
    ({ refCount := 1, symOptions := 0 } : DbgState).refCount > 0 ∧
    dbghelp_init true { refCount := 1, symOptions := 0 } =
      (some { opts := 0 }, { refCount := 2, symOptions := 0 }, []) :=
  ⟨by decide, c6_shared_path_no_reinit true { refCount := 1, symOptions := 0 }
    (by decide)⟩

/-- Claim C7: when the count is 0 and `SymInitializeW` fails, `dbghelp_init`
returns `None` and the reference count stays 0 — the failure surfaces as a
missing lease, never as an error or abort. -/
theorem c7_failed_init_returns_none (s : DbgState) (h : s.refCount = 0) :
    (dbghelp_init false s).1 = none ∧
    (dbghelp_init false s).2.1.refCount = 0 := by
  simp [dbghelp_init, h]

theorem c7_failed_init_returns_none_witness :
    ({ refCount := 0, symOptions := 3 } : DbgState).refCount = 0 ∧
    ((dbghelp_init false { refCount := 0, symOptions := 3 }).1 = none ∧
      (dbghelp_init false { refCount := 0, symOptions := 3 }).2.1.refCount = 0) :=
  ⟨rfl, c7_failed_init_returns_none { refCount := 0, symOptions := 3 } rfl⟩

/-- Claim C9: on the failing path (count 0, `SymInitializeW` returning
false), the process-wide options were already switched to
`opts | SYMOPT_DEFERRED_LOADS` and the `None` return restores nothing: the
emitted calls are exactly the `SymSetOptions` of the ORed value followed by
the failed `SymInitializeW`. -/
theorem c9_failure_leaves_options_set (s : DbgState) (h : s.refCount = 0) :
    (dbghelp_init false s).1 = none ∧
    (dbghelp_init false s).2.1.symOptions =
      (s.symOptions ||| SYMOPT_DEFERRED_LOADS) ∧
    (dbghelp_init false s).2.2 =
      [SymCall.setOptions (s.symOptions ||| SYMOPT_DEFERRED_LOADS),
        SymCall.symInitializeW] := by
  simp [dbghelp_init, h]

theorem c9_failure_leaves_options_set_witness :
    ({ refCount := 0, symOptions := 1 } : DbgState).refCount = 0 ∧
    ((dbghelp_init false { refCount := 0, symOptions := 1 }).1 = none ∧
      (dbghelp_init false { refCount := 0, symOptions := 1 }).2.1.symOptions =
        ((1 : Nat) ||| SYMOPT_DEFERRED_LOADS) ∧
      (dbghelp_init false { refCount := 0, symOptions := 1 }).2.2 =
        [SymCall.setOptions ((1 : Nat) ||| SYMOPT_DEFERRED_LOADS),
          SymCall.symInitializeW]) :=
  ⟨rfl, c9_failure_leaves_options_set { refCount := 0, symOptions := 1 } rfl⟩

/-- Claim C8 as written is false: a nested acquisition (count already
positive) saves `SymGetOptions()` taken after `SYMOPT_DEFERRED_LOADS` was
ORed in, and the final restore writes the saved `opts` of whichever lease
drops last. Starting from options 0, two acquisitions followed by releases
in acquisition order restore 4 (the ORed value), not the prior value 0. -/
theorem c8_restore_counterexample :
    dbghelp_init true { refCount := 0, symOptions := 0 } =
      (some { opts := 0 }, { refCount := 1, symOptions := 4 },
        [SymCall.setOptions 4, SymCall.symInitializeW]) ∧
    dbghelp_init true { refCount := 1, symOptions := 4 } =
      (some { opts := 4 }, { refCount := 2, symOptions := 4 }, []) ∧
    dropMany [{ opts := 0 }, { opts := 4 }] { refCount := 2, symOptions := 4 } =
      ({ refCount := 0, symOptions := 4 },
        [SymCall.symCleanup, SymCall.setOptions 4]) ∧
    (4 : Nat) ≠ 0 := by
  refine ⟨by decide, by decide, by decide, by decide⟩

/-- Claim C8 amended: when the leases are released in reverse acquisition
order (LIFO, as with properly nested lifetimes), the lease dropped last is
the first one acquired, so the final `SymSetOptions` restores exactly the
configuration saved before `SYMOPT_DEFERRED_LOADS` was ORed in; other
release orders may instead restore a later lease's saved value, which
already contains the ORed flag. -/
theorem c8_amended_lifo_restores_saved (k : Nat) (s : DbgState)
    (h0 : s.refCount = 0) :
    (dropMany (acquireMany (k + 1) true s).1.reverse
        (acquireMany (k + 1) true s).2.1).1 =
      { refCount := 0, symOptions := s.symOptions } ∧
    (dropMany (acquireMany (k + 1) true s).1.reverse
        (acquireMany (k + 1) true s).2.1).2 =
      [SymCall.symCleanup, SymCall.setOptions s.symOptions] := by
  have hinit : dbghelp_init true s =
      (some { opts := s.symOptions },
        { refCount := 1,
          symOptions := s.symOptions ||| SYMOPT_DEFERRED_LOADS },
        [SymCall.setOptions (s.symOptions ||| SYMOPT_DEFERRED_LOADS),
          SymCall.symInitializeW]) := by
    simp [dbghelp_init, h0]
  have hacq : acquireMany (k + 1) true s =
      ({ opts := s.symOptions } ::
          List.replicate k
            { opts := s.symOptions ||| SYMOPT_DEFERRED_LOADS },
        { refCount := 1 + k,
          symOptions := s.symOptions ||| SYMOPT_DEFERRED_LOADS },
        [SymCall.setOptions (s.symOptions ||| SYMOPT_DEFERRED_LOADS),
          SymCall.symInitializeW]) := by
    simp only [acquireMany]
    rw [hinit]
    simp only
    rw [acquireMany_pos k true _ (by simp)]
    simp
  rw [hacq]
  simp only [List.reverse_cons, List.reverse_replicate]
  rw [dropMany_append]
  have hrep : (List.replicate k
      ({ opts := s.symOptions ||| SYMOPT_DEFERRED_LOADS } : Cleanup)).length =
      k := List.length_replicate k _
  have hdlt := dropMany_lt
    (List.replicate k { opts := s.symOptions ||| SYMOPT_DEFERRED_LOADS })
    { refCount := 1 + k, symOptions := s.symOptions ||| SYMOPT_DEFERRED_LOADS }
    (by simp)
  rw [hdlt]
  have hlast := dropRun_of_last ({ opts := s.symOptions } : Cleanup)
    { refCount := 1, symOptions := s.symOptions ||| SYMOPT_DEFERRED_LOADS } rfl
  simp only [dropMany]
  simp [hlast]

theorem c8_amended_lifo_restores_saved_witness :
    (dropMany (acquireMany 2 true { refCount := 0, symOptions := 8 }).1.reverse
        (acquireMany 2 true { refCount := 0, symOptions := 8 }).2.1).1 =
      { refCount := 0, symOptions := 8 } ∧
    (dropMany (acquireMany 2 true { refCount := 0, symOptions := 8 }).1.reverse
        (acquireMany 2 true { refCount := 0, symOptions := 8 }).2.1).2 =
      [SymCall.symCleanup, SymCall.setOptions 8] :=
  c8_amended_lifo_restores_saved 1 { refCount := 0, symOptions := 8 } rfl
